import Mathlib

/-!
Formal model of the quadrature pipeline of TIBRA/QuESo.

This file gives a shallow embedding, over `ℚ`, of the parts of the code that
the verified claims are about:

* `QuadratureSingleElement::AssembleIPs` (tensor Gauss rule of an inside cell),
* `MomentFitting::PointElimination` and
  `MomentFitting::CreateIntegrationPointsTrimmed` (moment fitting of a
  trimmed cell, `src/unnamed/part_004`),
* the per-cell publication decision of `QuESo::Compute` (`src/unnamed/part_002`),
* `TrimmedDomain::IsInsideTrimmedDomain`
  (`src/tibra/embedding/trimmed_domain.cpp`),
* the STL reader of `src/tibra/io/io_utilities.cpp`
  (`STLIsInASCIIFormat`, the facet loop shared by
  `ReadMeshFromSTL_Ascii` and `ReadMeshFromSTL_Binary`).

`double` values are modelled as rational numbers; the claims under study are
about control flow, ordering and filtering, not about rounding.  Numerical
kernels whose sources are not part of the studied tree (the NNLS solver
`nnls::nnls`, the 1D Gauss tables of `IntegrationPointFactory1D`, the octree
seeding, the Euclidean norm `sqrt`) are taken as parameters of the embedded
functions, so every theorem below holds for every behaviour of those kernels.
Named constants from the missing `define.hpp` (`EPS1`, `EPS2`, `EPS3`,
`EPS4`, `MIND`, `MAXD`, `SNAPTOL`, `ZEROTOL`) are likewise parameters.
-/

namespace TIBRA

/-- An interior integration point: position and weight
(`containers/integration_point.hpp`). -/
structure IntegrationPoint where
  x : ℚ
  y : ℚ
  z : ℚ
  weight : ℚ
deriving Repr, DecidableEq

/-- The position triple of a point; the moment-fitting matrix of
`MomentFitting::MomentFitting1` depends on positions only. -/
def positions (l : List IntegrationPoint) : List (ℚ × ℚ × ℚ) :=
  l.map fun p => (p.x, p.y, p.z)

/-- Write a vector of solver weights onto the integration points, as the
final loop of `MomentFitting::MomentFitting1` does (part_004 lines 209-213;
the solver always returns exactly one weight per point). -/
def setWeights (l : List IntegrationPoint) (ws : List ℚ) : List IntegrationPoint :=
  List.zipWith (fun p w => { p with weight := w }) l ws

/-- Model of `MomentFitting::MomentFitting1`: from the candidate positions it
produces the residual `nnls(...)/number_of_functions` and the weights
(already divided by the Jacobian determinant).  The NNLS solver is an
external numerical kernel (`solvers/nnls.h`), so it is a parameter: the
theorems below hold for every oracle. -/
def FitOracle : Type := List (ℚ × ℚ × ℚ) → ℚ × List ℚ

/-! ### Tensor Gauss rule of a non-trimmed element

`QuadratureSingleElement::AssembleIPs` (part_000 lines 188-218).  The three
1D rules delivered by `IntegrationPointFactory1D::GetGauss` are parameters
(lists of abscissa/weight pairs). -/

/-- `QuadratureSingleElement::AssembleIPs`: tensor-product rule on the
parametric box, weight `w_u·len_u · w_v·len_v · w_w·len_w`. -/
def AssembleIPs (lowerBoundParam upperBoundParam : ℚ × ℚ × ℚ)
    (ipListU ipListV ipListW : List (ℚ × ℚ)) : List IntegrationPoint :=
  let lengthU := |upperBoundParam.1 - lowerBoundParam.1|
  let lengthV := |upperBoundParam.2.1 - lowerBoundParam.2.1|
  let lengthW := |upperBoundParam.2.2 - lowerBoundParam.2.2|
  ipListU.flatMap fun pu =>
    ipListV.flatMap fun pv =>
      ipListW.map fun pw =>
        { x := lowerBoundParam.1 + lengthU * pu.1
          y := lowerBoundParam.2.1 + lengthV * pv.1
          z := lowerBoundParam.2.2 + lengthW * pw.1
          weight := pu.2 * lengthU * pv.2 * lengthV * pw.2 * lengthW }

/-! ### Sorting and scanning helpers of `MomentFitting::PointElimination` -/

/-- Weight-descending order used by the first-round `std::sort`
(part_004 lines 241-243, comparator `GetWeight() >`). -/
def weightGE (a b : IntegrationPoint) : Prop := b.weight ≤ a.weight

instance : DecidableRel weightGE := fun a b => inferInstanceAs (Decidable (b.weight ≤ a.weight))

instance : IsTotal IntegrationPoint weightGE := ⟨fun a b => le_total b.weight a.weight⟩

instance : IsTrans IntegrationPoint weightGE :=
  ⟨fun _ _ _ h h' => le_trans h' h⟩

/-- Sort by descending weight (the `std::sort` of round 0). -/
def sortDesc (l : List IntegrationPoint) : List IntegrationPoint :=
  List.insertionSort weightGE l

/-- Running maximum of the weights, starting from `-1e10` exactly as the
`max_value` scan of part_004 lines 254-264. -/
def maxWeight (l : List IntegrationPoint) : ℚ :=
  l.foldl (fun m p => if m < p.weight then p.weight else m) (-(mkRat 10000000000 1))

/-- The `min_value_it` scan of part_004 lines 252-265: index of the first
point whose weight is strictly below everything before it, starting from
`min_value = 1e10`. -/
def minIdxAux : List IntegrationPoint → ℕ → ℕ → ℚ → ℕ
  | [], best, _, _ => best
  | p :: rest, best, i, bv =>
    if p.weight < bv then minIdxAux rest i (i + 1) p.weight
    else minIdxAux rest best (i + 1) bv

/-- Index of the first minimal-weight point (see `minIdxAux`). -/
def minWeightIdx (l : List IntegrationPoint) : ℕ :=
  minIdxAux l 0 0 (mkRat 10000000000 1)

/-- One pass of the erase loop of part_004 lines 266-276, mirrored at the
level of the `std::vector` it mutates: the elements before the cursor are
`done`, the elements from the cursor on are `rest`, and `cnt` is `counter`.
A point is erased when its weight is below `thr = EPS1·max_value` and the
vector still holds more than 4 points; erasing shifts the next element into
the cursor slot, which the `i++` of the source then skips. -/
def erasePassAux (thr : ℚ) : List IntegrationPoint → List IntegrationPoint → ℕ →
    List IntegrationPoint × ℕ
  | done, [], cnt => (done, cnt)
  | done, p :: rest, cnt =>
    if p.weight < thr ∧ 4 < done.length + (p :: rest).length then
      match rest with
      | [] => (done, cnt + 1)
      | q :: rest' => erasePassAux thr (done ++ [q]) rest' (cnt + 1)
    else erasePassAux thr (done ++ [p]) rest cnt

/-! ### The elimination loop -/

/-- Loop state of `MomentFitting::PointElimination`:
`pts` is `rIntegrationPoint`, `prevSol`/`prevRes` the remembered last-good
solution, `res` is `global_residual`, `iters` is `number_iterations` and
`removed` is `point_removed`. -/
structure ElimState where
  pts : List IntegrationPoint
  prevSol : List IntegrationPoint
  prevRes : ℚ
  res : ℚ
  iters : ℕ
  removed : Bool
deriving Repr

/-- The `while` guard of part_004 line 236:
`point_removed || (global_residual < allowed_residual && number_iterations < 1000)`. -/
def elimGuard (allowed : ℚ) (s : ElimState) : Bool :=
  s.removed || (decide (s.res < allowed) && decide (s.iters < 1000))

/-- Round 0 of the loop (part_004 lines 239-247): sort by descending weight,
keep the first `number_of_functions` points, flag a removal. -/
def elimRound0 (nFun : ℕ) (refit : List IntegrationPoint) (s : ElimState) (res1 : ℚ) :
    ElimState :=
  { s with pts := (sortDesc refit).take nFun, res := res1, removed := true,
           iters := s.iters + 1 }

/-- The point list after the removal phase of a later round (part_004 lines
252-280): the erase pass with threshold `EPS1·max_value` runs first; if it
erased nothing (`counter == 0`) while more than 4 points remain, the first
minimal-weight point is erased instead. -/
def reducePts (eps1 : ℚ) (refit : List IntegrationPoint) : List IntegrationPoint :=
  let pr := erasePassAux (eps1 * maxWeight refit) [] refit 0
  if pr.2 = 0 ∧ 4 < pr.1.length then pr.1.eraseIdx (minWeightIdx refit) else pr.1

/-- Whether the removal phase removed a point (`point_removed` after lines
252-280): the pass erased something, or the single minimal point was erased. -/
def reduceRemoved (eps1 : ℚ) (refit : List IntegrationPoint) : Bool :=
  let pr := erasePassAux (eps1 * maxWeight refit) [] refit 0
  decide (0 < pr.2) || decide (pr.2 = 0 ∧ 4 < pr.1.length)

/-- A later round with `global_residual < allowed_residual`
(part_004 lines 248-284): remember the current solution as last-good, run
the removal phase, and jump the iteration counter past the cap
(`number_iterations = maximum_iteration + 10`) when at most 4 points remain
and nothing was removed. -/
def elimReduce (eps1 : ℚ) (refit : List IntegrationPoint) (s : ElimState) (res1 : ℚ) :
    ElimState :=
  { pts := reducePts eps1 refit, prevSol := refit, prevRes := res1, res := res1,
    iters := (if (reducePts eps1 refit).length ≤ 4 ∧ reduceRemoved eps1 refit = false
              then 1000 + 10 else s.iters) + 1,
    removed := reduceRemoved eps1 refit }

/-- The residual delivered by `MomentFitting1` for the current points. -/
def resOf (fit : FitOracle) (s : ElimState) : ℚ := (fit (positions s.pts)).1

/-- The current points with the weights delivered by `MomentFitting1`. -/
def refitOf (fit : FitOracle) (s : ElimState) : List IntegrationPoint :=
  setWeights s.pts (fit (positions s.pts)).2

/-- One execution of the loop body of `MomentFitting::PointElimination`
(part_004 lines 236-286): refit the weights through the NNLS oracle, then
round 0, the reduction round, or the silent round in which the residual has
drifted to or above the target. -/
def elimBody (fit : FitOracle) (nFun : ℕ) (allowed eps1 : ℚ) (s : ElimState) : ElimState :=
  if s.iters = 0 then elimRound0 nFun (refitOf fit s) s (resOf fit s)
  else if resOf fit s < allowed then elimReduce eps1 (refitOf fit s) s (resOf fit s)
  else { s with pts := refitOf fit s, res := resOf fit s, removed := false,
                iters := s.iters + 1 }

/-- The `while` loop, run for at most `fuel` rounds (the fuel chosen in
`PointElimination` below is proved sufficient: the loop always exits the
guard before exhausting it). -/
def elimRun (fit : FitOracle) (nFun : ℕ) (allowed eps1 : ℚ) :
    ℕ → ElimState → ElimState
  | 0, s => s
  | fuel + 1, s =>
    if elimGuard allowed s then elimRun fit nFun allowed eps1 fuel (elimBody fit nFun allowed eps1 s)
    else s

/-- Entry state of the loop: `global_residual = MIND`, `prev_residual = 0`,
no removal yet (part_004 lines 229-235).  `MIND` comes from the missing
`define.hpp` and is a parameter. -/
def elimInit (mind : ℚ) (pts0 : List IntegrationPoint) : ElimState :=
  { pts := pts0, prevSol := [], prevRes := 0, res := mind, iters := 0, removed := false }

/-- The write-back after the loop (part_004 lines 288-301): restore the
last-good solution when the final residual reached the target again and the
iteration counter stayed below the cap, then erase every point whose weight
is below `EPS4`.  The element's own point list is empty at the call site
(`CreateIntegrationPointsTrimmed` clears it first), so the result is the
published list, paired with the returned residual. -/
def elimFinish (allowed eps4 : ℚ) (s : ElimState) : List IntegrationPoint × ℚ :=
  if allowed ≤ s.res ∧ 0 < s.prevSol.length ∧ s.iters < 1000 then
    (s.prevSol.filter (fun p => !decide (p.weight < eps4)), s.prevRes)
  else
    (s.pts.filter (fun p => !decide (p.weight < eps4)), s.res)

/-- `MomentFitting::PointElimination` (part_004 lines 219-302).  The fuel
`pts0.length + nFun + 3` is enough for the loop to reach a state whose guard
is false (theorem `elimRun_fuel_sufficient` below). -/
def PointElimination (fit : FitOracle) (nFun : ℕ) (allowed eps1 eps4 mind : ℚ)
    (pts0 : List IntegrationPoint) : List IntegrationPoint × ℚ :=
  elimFinish allowed eps4
    (elimRun fit nFun allowed eps1 (pts0.length + nFun + 3) (elimInit mind pts0))

/-! ### The outer seeding-and-retry loop of `CreateIntegrationPointsTrimmed` -/

/-- State of the outer loop of `MomentFitting::CreateIntegrationPointsTrimmed`
(part_004 lines 128-158): the last residual, the element's point list, the
current `point_distribution_factor` and the retry counter. -/
structure TrimmedFitState where
  residual : ℚ
  elementPts : List IntegrationPoint
  factor : ℕ
  iteration : ℕ
deriving Repr

/-- One outer round (part_004 lines 135-158): seed
`min_num_points = nFun·factor` candidates through the octree (the octree is
an external component, so the seeded list is an oracle of that budget),
append the surviving points of the previous round, clear the element, run
`PointElimination`, clear again if the residual exceeds the hard cutoff
`1e-2`, then double the distribution factor and count the retry. -/
def trimmedOuterBody (fit : FitOracle) (seed : ℕ → List IntegrationPoint)
    (nFun : ℕ) (allowed eps1 eps4 mind : ℚ) (st : TrimmedFitState) : TrimmedFitState :=
  let candidates := seed (nFun * st.factor) ++ st.elementPts
  let out := PointElimination fit nFun allowed eps1 eps4 mind candidates
  let kept := if mkRat 1 100 < out.2 then [] else out.1
  { residual := out.2, elementPts := kept, factor := st.factor * 2,
    iteration := st.iteration + 1 }

/-- The outer `while( residual > rParam.MomentFittingResidual() && iteration < 4UL)`
loop; `fuel = 4` matches the iteration cap in the guard. -/
def trimmedLoop (fit : FitOracle) (seed : ℕ → List IntegrationPoint)
    (nFun : ℕ) (allowed eps1 eps4 mind : ℚ) :
    ℕ → TrimmedFitState → TrimmedFitState
  | 0, st => st
  | fuel + 1, st =>
    if allowed < st.residual ∧ st.iteration < 4 then
      trimmedLoop fit seed nFun allowed eps1 eps4 mind fuel
        (trimmedOuterBody fit seed nFun allowed eps1 eps4 mind st)
    else st

/-- `MomentFitting::CreateIntegrationPointsTrimmed` (part_004 lines 114-163):
start from `residual = MAXD`, an empty element and the configured
`init_point_distribution_factor`, and run the outer loop. -/
def CreateIntegrationPointsTrimmed (fit : FitOracle) (seed : ℕ → List IntegrationPoint)
    (nFun : ℕ) (allowed eps1 eps4 mind maxd : ℚ) (f0 : ℕ) : TrimmedFitState :=
  trimmedLoop fit seed nFun allowed eps1 eps4 mind 4
    { residual := maxd, elementPts := [], factor := f0, iteration := 0 }

/-! ### The per-cell publication decision of `QuESo::Compute` -/

/-- Classification state of a cell (`IntersectionStatus` of the source). -/
inductive IntersectionStatus where
  | Inside
  | Outside
  | Trimmed
deriving Repr, DecidableEq

/-- The per-cell branch of `QuESo::Compute` (part_002 lines 122-176),
returning the point list of the published element, or `none` when the cell
is skipped.  With `embedding = false` every cell counts as Inside.  A
trimmed cell is skipped when no trimmed domain could be built
(`hasTrimmedDomain = false` models a null `pGetTrimmedDomain` result) and,
after moment fitting, when its point list came out empty.  An inside cell
gets the tensor Gauss rule unless a GGQ rule is selected (which fills the
points in a later multi-element pass). -/
def computeCell (fit : FitOracle) (seed : ℕ → List IntegrationPoint)
    (nFun : ℕ) (allowed eps1 eps4 mind maxd : ℚ) (f0 : ℕ)
    (embedding ggq : Bool) (status : IntersectionStatus) (hasTrimmedDomain : Bool)
    (gaussPts : List IntegrationPoint) : Option (List IntegrationPoint) :=
  let st := if embedding then status else .Inside
  match st with
  | .Outside => none
  | .Trimmed =>
    if hasTrimmedDomain then
      let pts := (CreateIntegrationPointsTrimmed fit seed nFun allowed eps1 eps4
        mind maxd f0).elementPts
      if pts.length = 0 then none else some pts
    else none
  | .Inside => some (if ggq then [] else gaussPts)

/-! ### The trimmed-domain inside test

`TrimmedDomain::IsInsideTrimmedDomain` (trimmed_domain.cpp lines 18-92).
The geometric kernels — the parallelism test of the ray built towards the
center of the target triangle, the AABB-tree query, and the Möller–Trumbore
intersection of every candidate triangle — are parameters: for each target
triangle id they deliver the parallel flag and the list of candidate cast
results for that ray. -/

/-- Result of `ray.intersect` for one candidate triangle:
the returned flag plus the out-parameters `t, u, v, back_facing, parallel`. -/
structure CastHit where
  hit : Bool
  t : ℚ
  u : ℚ
  v : ℚ
  backFacing : Bool
  parallel : Bool
deriving Repr, DecidableEq

/-- Outcome of the candidate scan (the `for` loop over
`potential_intersections`). -/
inductive InnerResult where
  | originOnBoundary
  | graze
  | finished (isInside : Bool)
deriving Repr, DecidableEq

/-- The candidate scan (trimmed_domain.cpp lines 59-87): skip misses and
parallel hits; return `false` for the whole query when `t < EPS2` (the ray
origin lies on the boundary); break to the next target triangle when the
barycentric coordinates graze a triangle edge within `EPS3`; otherwise keep
the closest hit's `back_facing` flag.  `minD` starts at `MAXD`. -/
def innerScan (eps2 eps3 : ℚ) : List CastHit → ℚ → Bool → InnerResult
  | [], _, inside => .finished inside
  | h :: rest, minD, inside =>
    if h.hit then
      if h.parallel then innerScan eps2 eps3 rest minD inside
      else if h.t < eps2 then .originOnBoundary
      else if h.u < eps3 ∨ h.v < eps3 ∨ 1 - eps3 < h.u + h.v then .graze
      else if h.t < minD then innerScan eps2 eps3 rest h.t h.backFacing
      else innerScan eps2 eps3 rest minD inside
    else innerScan eps2 eps3 rest minD inside

/-- The outer `while( try_next_triangle )` loop over target-triangle ids
(trimmed_domain.cpp lines 27-90): skip targets whose ray is parallel to
them, raise the source's `runtime_error` when the tree returns no candidate,
and otherwise scan the candidates.  Exhausting all ids returns `false`. -/
def isInsideLoop (eps2 eps3 maxd : ℚ) (parallelTarget : ℕ → Bool)
    (query : ℕ → List CastHit) : List ℕ → Except Unit Bool
  | [] => .ok false
  | id :: rest =>
    if parallelTarget id then isInsideLoop eps2 eps3 maxd parallelTarget query rest
    else if (query id).length = 0 then .error ()
    else
      match innerScan eps2 eps3 (query id) maxd false with
      | .originOnBoundary => .ok false
      | .graze => isInsideLoop eps2 eps3 maxd parallelTarget query rest
      | .finished b => .ok b

/-- `TrimmedDomain::IsInsideTrimmedDomain`: a clipped mesh without triangles
answers `true` at once (lines 20-23); otherwise the target-triangle loop
runs over ids `0, …, numTriangles-1`. -/
def IsInsideTrimmedDomain (eps2 eps3 maxd : ℚ) (numTriangles : ℕ)
    (parallelTarget : ℕ → Bool) (query : ℕ → List CastHit) : Except Unit Bool :=
  if numTriangles = 0 then .ok true
  else isInsideLoop eps2 eps3 maxd parallelTarget query (List.range numTriangles)

/-- A target triangle id leads to a degenerate cast: either the ray towards
its center is parallel to it, or the candidate scan of that ray breaks on a
boundary graze (with a non-empty candidate list). -/
def degenerateCast (eps2 eps3 maxd : ℚ) (parallelTarget : ℕ → Bool)
    (query : ℕ → List CastHit) (id : ℕ) : Bool :=
  parallelTarget id ||
    (decide ((query id).length ≠ 0) &&
      decide (innerScan eps2 eps3 (query id) maxd false = .graze))

/-! ### STL format detection (`IO::STLIsInASCIIFormat`, io_utilities.cpp 522-537) -/

/-- `needle` occurs as a contiguous run inside `hay`
(`std::string::find(...) != npos`). -/
def containsSeq (needle : List Char) : List Char → Bool
  | [] => needle.isEmpty
  | c :: rest => needle.isPrefixOf (c :: rest) || containsSeq needle rest

/-- `IO::STLIsInASCIIFormat`: read the first (up to) 256 bytes of the file,
lower-case them, and report ASCII when they contain "solid", "normal",
"facet" and a newline. -/
def STLIsInASCIIFormat (contents : List Char) : Bool :=
  let message := (contents.take 256).map Char.toLower
  containsSeq "solid".toList message && containsSeq "normal".toList message &&
    containsSeq "facet".toList message && containsSeq "\n".toList message

/-- The detector as claim C7 words it: only the first at most 80 bytes are
inspected.  (Spec wording, for comparison with `STLIsInASCIIFormat`.) -/
def stlAsciiDetect80 (contents : List Char) : Bool :=
  let message := (contents.take 80).map Char.toLower
  containsSeq "solid".toList message && containsSeq "normal".toList message &&
    containsSeq "facet".toList message && containsSeq "\n".toList message

/-- The parse mode chosen by `IO::ReadMeshFromSTL` (io_utilities.cpp 84-93). -/
inductive STLParseMode where
  | ascii
  | binary
deriving Repr, DecidableEq

/-- `IO::ReadMeshFromSTL` dispatch: ASCII exactly when the detector fires. -/
def ReadMeshFromSTLMode (contents : List Char) : STLParseMode :=
  if STLIsInASCIIFormat contents then .ascii else .binary

/-! ### The facet loop of the STL readers

`IO::ReadMeshFromSTL_Ascii` (io_utilities.cpp 595-635) and
`IO::ReadMeshFromSTL_Binary` (713-754) share, facet by facet, the same
processing: each of the three vertices is canonicalized through the
`std::map<Vector3d, int, PointComparison>` snapping index map, and the facet
is appended to the mesh only when the norm of its stored normal exceeds
`0.99`, in which case the stored normal is discarded and recomputed from the
longest two edges of the (canonicalized) triangle.

The Euclidean norm of a vector of doubles is a `sqrt` and is not rational;
it enters only the keep test (where `‖n‖ > 0.99 ↔ ‖n‖² > 0.9801` replaces it
exactly) and the longest-edge comparisons, where it is an oracle `len`. -/

/-- A 3-vector of rationals (`Vector3d`). -/
structure Vec3 where
  x : ℚ
  y : ℚ
  z : ℚ
deriving Repr, DecidableEq

/-- Componentwise difference. -/
def Vec3.sub (a b : Vec3) : Vec3 := ⟨a.x - b.x, a.y - b.y, a.z - b.z⟩

/-- Cross product (`Math::Cross`). -/
def Vec3.cross (a b : Vec3) : Vec3 :=
  ⟨a.y * b.z - a.z * b.y, a.z * b.x - a.x * b.z, a.x * b.y - a.y * b.x⟩

/-- Squared Euclidean norm. -/
def Vec3.normSq (a : Vec3) : ℚ := a.x * a.x + a.y * a.y + a.z * a.z

/-- Scalar multiple. -/
def Vec3.smul (c : ℚ) (a : Vec3) : Vec3 := ⟨c * a.x, c * a.y, c * a.z⟩

/-- The `PointComparison` strict order of io_utilities.cpp lines 11-22. -/
def snapLess (snaptol : ℚ) (l r : Vec3) : Bool :=
  if |l.x - r.x| < snaptol ∧ |l.y - r.y| < snaptol then decide (l.z < r.z - snaptol)
  else if |l.x - r.x| < snaptol then decide (l.y < r.y - snaptol)
  else decide (l.x ≤ r.x - snaptol)

/-- Two vertices the snapping map identifies: neither is `PointComparison`-
below the other. -/
def snapEquiv (snaptol : ℚ) (a b : Vec3) : Bool :=
  !snapLess snaptol a b && !snapLess snaptol b a

/-- One facet as parsed from the file: the stored normal and three vertices. -/
structure STLFacet where
  normal : Vec3
  v1 : Vec3
  v2 : Vec3
  v3 : Vec3
deriving Repr, DecidableEq

/-- The mesh under construction: the snapping map (stored vertex, index, in
insertion order — `index` of the source is `nextIndex`), the vertex array,
the triangles (vertex-index triples) and the recomputed normals. -/
structure MeshState where
  indexMap : List (Vec3 × ℕ)
  nextIndex : ℕ
  vertices : List Vec3
  triangles : List (ℕ × ℕ × ℕ)
  normals : List Vec3
deriving Repr, DecidableEq

/-- The empty mesh (`rTriangleMesh.Clear()`). -/
def emptyMeshState : MeshState :=
  { indexMap := [], nextIndex := 0, vertices := [], triangles := [], normals := [] }

/-- One vertex through the snapping map
(`index_map.insert(std::make_pair(vertex, -1))`, io_utilities.cpp 596-606):
an equivalent stored vertex is reused (returning its index and stored,
canonical position); otherwise the vertex is stored under a fresh index and
appended to the vertex array. -/
def insertVertex (snaptol : ℚ) (st : MeshState) (v : Vec3) : MeshState × ℕ × Vec3 :=
  match st.indexMap.find? (fun e => snapEquiv snaptol e.1 v) with
  | some e => (st, e.2, e.1)
  | none =>
    ({ st with indexMap := st.indexMap ++ [(v, st.nextIndex)],
               nextIndex := st.nextIndex + 1,
               vertices := st.vertices ++ [v] },
     st.nextIndex, v)

/-- The normal recomputed from the longest two edges (io_utilities.cpp
612-633), on the canonicalized vertices `w1 w2 w3`; `len` is the
floating-point Euclidean norm, `zerotol` is `ZEROTOL`.  The result is the
selected cross product scaled by the reciprocal of its `len`. -/
def recomputedNormal (len : Vec3 → ℚ) (zerotol : ℚ) (w1 w2 w3 : Vec3) : Vec3 :=
  let A := w2.sub w1
  let B := w3.sub w2
  let C := w1.sub w3
  let n :=
    if len C - zerotol ≤ len A ∧ len C - zerotol ≤ len B then A.cross B
    else if len B - zerotol ≤ len A ∧ len B - zerotol ≤ len C then C.cross A
    else B.cross C
  Vec3.smul (1 / len n) n

/-- One iteration of the facet loop: canonicalize the three vertices, then
keep the facet only if `‖normal‖ > 0.99` (equivalently `‖normal‖² > 0.9801`),
with the recomputed normal. -/
def processFacet (snaptol : ℚ) (len : Vec3 → ℚ) (zerotol : ℚ)
    (st : MeshState) (f : STLFacet) : MeshState :=
  let r1 := insertVertex snaptol st f.v1
  let r2 := insertVertex snaptol r1.1 f.v2
  let r3 := insertVertex snaptol r2.1 f.v3
  if mkRat 9801 10000 < f.normal.normSq then
    { r3.1 with
      triangles := r3.1.triangles ++ [(r1.2.1, r2.2.1, r3.2.1)],
      normals := r3.1.normals ++ [recomputedNormal len zerotol r1.2.2 r2.2.2 r3.2.2] }
  else r3.1

/-- The facet loop of both STL readers over the parsed facet list. -/
def readSTLFacets (snaptol : ℚ) (len : Vec3 → ℚ) (zerotol : ℚ)
    (facets : List STLFacet) : MeshState :=
  facets.foldl (processFacet snaptol len zerotol) emptyMeshState

/-! ### Concrete instances used by counterexamples and witnesses -/

/-- A 100-byte STL header whose keywords all sit after byte 80. -/
def c7File : List Char := List.replicate 80 ' ' ++ "solid facet normal \n".toList

/-- A facet whose stored normal is the zero vector. -/
def c8Facet : STLFacet := ⟨⟨0, 0, 0⟩, ⟨0, 0, 0⟩, ⟨1, 0, 0⟩, ⟨0, 1, 0⟩⟩

/-- Well-formedness of the snapping map: the stored vertices are exactly the
keys of the map in insertion order, the indices are consecutive, and no two
stored vertices snap to each other — each distinct snapped vertex is stored
exactly once. -/
def MeshInv (snaptol : ℚ) (st : MeshState) : Prop :=
  st.vertices = st.indexMap.map Prod.fst
  ∧ st.indexMap.map Prod.snd = List.range st.nextIndex
  ∧ List.Pairwise (fun a b => snapEquiv snaptol a.1 b.1 = false) st.indexMap

/-- Five seed points on the x-axis (positions distinguish the rounds). -/
def c3Pts0 : List IntegrationPoint :=
  [⟨1, 0, 0, 0⟩, ⟨2, 0, 0, 0⟩, ⟨3, 0, 0, 0⟩, ⟨4, 0, 0, 0⟩, ⟨5, 0, 0, 0⟩]

/-- An NNLS oracle for the C3 run: residual 0 always; weights `3 9 9 9 2`
for the seed ordering (round 0) and `0 0 8 8 8` for the sorted ordering
(round 1). -/
def c3Fit : FitOracle := fun ps =>
  if ps.head? = some (1, 0, 0) then (0, [3, 9, 9, 9, 2]) else (0, [0, 0, 8, 8, 8])

/-- The state after round 0 of the C3 run (target residual 1, `ε_rel = 1/2`,
`N = 5`). -/
def c3S1 : ElimState := elimRun c3Fit 5 1 (mkRat 1 2) 1 (elimInit 0 c3Pts0)

/-- The refitted points at the start of round 1 of the C3 run. -/
def c3Refit : List IntegrationPoint := refitOf c3Fit c3S1

/-- The state after round 1 of the C3 run. -/
def c3S2 : ElimState := elimRun c3Fit 5 1 (mkRat 1 2) 2 (elimInit 0 c3Pts0)

/-! ## Theorems -/

theorem mem_elimFinish_weight {allowed eps4 : ℚ} {s : ElimState} {p : IntegrationPoint}
    (h : p ∈ (elimFinish allowed eps4 s).1) : eps4 ≤ p.weight := by
  unfold elimFinish at h
  split at h <;>
  · simp only [List.mem_filter, Bool.not_eq_true', decide_eq_false_iff_not, not_lt] at h
    exact h.2

theorem mem_AssembleIPs {lb ub : ℚ × ℚ × ℚ} {ipU ipV ipW : List (ℚ × ℚ)}
    {p : IntegrationPoint} (h : p ∈ AssembleIPs lb ub ipU ipV ipW) :
    ∃ pu ∈ ipU, ∃ pv ∈ ipV, ∃ pw ∈ ipW,
      p.weight = pu.2 * |ub.1 - lb.1| * pv.2 * |ub.2.1 - lb.2.1| * pw.2 * |ub.2.2 - lb.2.2| := by
  unfold AssembleIPs at h
  simp only [List.mem_flatMap, List.mem_map] at h
  obtain ⟨pu, hu, pv, hv, pw, hw, rfl⟩ := h
  exact ⟨pu, hu, pv, hv, pw, hw, rfl⟩

/-- C1.  Every integration point published by a cell carries strictly
positive weight: moment-fitted points of a trimmed cell survive the final
`weight < EPS4` erasure, hence have weight at least `EPS4` (with `EPS4`
positive, as every tolerance of `define.hpp` is); and every tensor-Gauss
point of an inside cell has weight equal to a product of the three 1D Gauss
weights (positive in every Gauss table) and the three positive edge lengths
of the parametric box. -/
theorem C1_positive_weights (fit : FitOracle) (nFun : ℕ) (allowed eps1 eps4 mind : ℚ)
    (pts0 : List IntegrationPoint) (lb ub : ℚ × ℚ × ℚ) (ipU ipV ipW : List (ℚ × ℚ)) :
    (0 < eps4 → ∀ p ∈ (PointElimination fit nFun allowed eps1 eps4 mind pts0).1, 0 < p.weight)
    ∧ ((∀ e ∈ ipU, 0 < e.2) → (∀ e ∈ ipV, 0 < e.2) → (∀ e ∈ ipW, 0 < e.2) →
        lb.1 ≠ ub.1 → lb.2.1 ≠ ub.2.1 → lb.2.2 ≠ ub.2.2 →
        ∀ p ∈ AssembleIPs lb ub ipU ipV ipW, 0 < p.weight) := by
  constructor
  · intro heps p hp
    exact lt_of_lt_of_le heps (mem_elimFinish_weight hp)
  · intro hU hV hW h1 h2 h3 p hp
    obtain ⟨pu, hu, pv, hv, pw, hw, hweq⟩ := mem_AssembleIPs hp
    rw [hweq]
    have l1 : 0 < |ub.1 - lb.1| := abs_pos.mpr (sub_ne_zero_of_ne (Ne.symm h1))
    have l2 : 0 < |ub.2.1 - lb.2.1| := abs_pos.mpr (sub_ne_zero_of_ne (Ne.symm h2))
    have l3 : 0 < |ub.2.2 - lb.2.2| := abs_pos.mpr (sub_ne_zero_of_ne (Ne.symm h3))
    exact mul_pos (mul_pos (mul_pos (mul_pos (mul_pos (hU pu hu) l1) (hV pv hv)) l2)
      (hW pw hw)) l3

/-- Witness for C1 at concrete inputs: a one-point elimination run with a
constant NNLS oracle, and a one-point-per-axis Gauss rule on the unit box. -/
theorem C1_positive_weights_witness :
    (∀ p ∈ (PointElimination (fun _ => (0, [5])) 1 1 1 1 0
        [⟨0, 0, 0, 2⟩]).1, 0 < p.weight)
    ∧ (∀ p ∈ AssembleIPs (0, 0, 0) (1, 1, 1) [((0 : ℚ), 1)] [((0 : ℚ), 1)]
        [((0 : ℚ), 1)], 0 < p.weight) :=
  ⟨(C1_positive_weights (fun _ => (0, [5])) 1 1 1 1 0 [⟨0, 0, 0, 2⟩]
      (0, 0, 0) (1, 1, 1) [] [] []).1 (by decide),
   (C1_positive_weights (fun _ => (0, [5])) 1 1 1 1 0 [⟨0, 0, 0, 2⟩]
      (0, 0, 0) (1, 1, 1) [((0 : ℚ), 1)] [((0 : ℚ), 1)] [((0 : ℚ), 1)]).2
      (by decide) (by decide) (by decide)
      (by decide) (by decide) (by decide)⟩

/-- C10.  A `TrimmedDomain` whose clipped mesh has no triangles reports
every query point as inside: `IsInsideTrimmedDomain` returns `true`
unconditionally. -/
theorem C10_empty_mesh_inside (eps2 eps3 maxd : ℚ) (parallelTarget : ℕ → Bool)
    (query : ℕ → List CastHit) :
    IsInsideTrimmedDomain eps2 eps3 maxd 0 parallelTarget query = .ok true := rfl

theorem containsSeq_iff_infix (n : List Char) :
    ∀ h : List Char, containsSeq n h = true ↔ n <:+: h
  | [] => by
    simp [containsSeq, List.isEmpty_iff, List.infix_nil]
  | c :: rest => by
    simp [containsSeq, Bool.or_eq_true, List.isPrefixOf_iff_prefix,
      containsSeq_iff_infix n rest, List.infix_cons_iff]

/-- C7 counterexample: a file whose first 80 bytes are blank but whose bytes
81-100 read `solid facet normal \n` is parsed as ASCII by the code, while
the claim (detection from the first at most 80 bytes) predicts binary. -/
theorem C7_counterexample :
    STLIsInASCIIFormat c7File = true ∧ stlAsciiDetect80 c7File = false := by
  constructor <;> rfl

/-- C7 as amended: the loader decides between ASCII and binary parsing by
inspecting the first at most 256 bytes (`file.read(chars, 256)`): the file
is parsed as ASCII exactly when those bytes, lower-cased, contain the
substrings "solid", "normal", "facet" and a newline. -/
theorem C7_amended (contents : List Char) :
    ReadMeshFromSTLMode contents = .ascii ↔
      ("solid".toList <:+: (contents.take 256).map Char.toLower ∧
        "normal".toList <:+: (contents.take 256).map Char.toLower ∧
        "facet".toList <:+: (contents.take 256).map Char.toLower ∧
        "\n".toList <:+: (contents.take 256).map Char.toLower) := by
  have hiff : STLIsInASCIIFormat contents = true ↔
      ("solid".toList <:+: (contents.take 256).map Char.toLower ∧
        "normal".toList <:+: (contents.take 256).map Char.toLower ∧
        "facet".toList <:+: (contents.take 256).map Char.toLower ∧
        "\n".toList <:+: (contents.take 256).map Char.toLower) := by
    simp only [STLIsInASCIIFormat, Bool.and_eq_true, containsSeq_iff_infix]
    tauto
  unfold ReadMeshFromSTLMode
  by_cases hdet : STLIsInASCIIFormat contents = true
  · simp only [hdet, if_true]
    simpa using hiff.mp hdet
  · have hfalse : STLIsInASCIIFormat contents = false := by
      simpa using hdet
    rw [hfalse]
    simp only [Bool.false_eq_true, if_false]
    constructor
    · intro hcontr
      cases hcontr
    · intro h
      exact absurd (hiff.mpr h) hdet

theorem isInsideLoop_all_degenerate (eps2 eps3 maxd : ℚ) (parallelTarget : ℕ → Bool)
    (query : ℕ → List CastHit) :
    ∀ ids : List ℕ, (∀ id ∈ ids, degenerateCast eps2 eps3 maxd parallelTarget query id = true) →
      isInsideLoop eps2 eps3 maxd parallelTarget query ids = .ok false
  | [], _ => rfl
  | id :: rest, h => by
    have hid := h id (List.mem_cons_self id rest)
    have hrest := isInsideLoop_all_degenerate eps2 eps3 maxd parallelTarget query rest
      (fun j hj => h j (List.mem_cons_of_mem id hj))
    unfold degenerateCast at hid
    unfold isInsideLoop
    rcases hpar : parallelTarget id with _ | _
    · rw [hpar] at hid
      simp only [Bool.false_or, Bool.and_eq_true, decide_eq_true_eq] at hid
      rw [if_neg (by simp), if_neg (by omega), hid.2]
      exact hrest
    · rw [if_pos rfl]
      exact hrest

theorem isInsideLoop_origin_on_boundary (eps2 eps3 maxd : ℚ) (parallelTarget : ℕ → Bool)
    (query : ℕ → List CastHit) (i : ℕ) (rest : List ℕ)
    (hpar : parallelTarget i = false) (hne : (query i).length ≠ 0)
    (hscan : innerScan eps2 eps3 (query i) maxd false = .originOnBoundary) :
    ∀ pre : List ℕ,
      (∀ id ∈ pre, degenerateCast eps2 eps3 maxd parallelTarget query id = true) →
      isInsideLoop eps2 eps3 maxd parallelTarget query (pre ++ i :: rest) = .ok false
  | [], _ => by
    rw [List.nil_append]
    simp only [isInsideLoop]
    rw [if_neg (by simp [hpar]), if_neg hne, hscan]
  | id :: pre', h => by
    have hid := h id (List.mem_cons_self id pre')
    have hrest := isInsideLoop_origin_on_boundary eps2 eps3 maxd parallelTarget query i rest
      hpar hne hscan pre' (fun j hj => h j (List.mem_cons_of_mem id hj))
    unfold degenerateCast at hid
    rw [List.cons_append]
    unfold isInsideLoop
    rcases hp : parallelTarget id with _ | _
    · rw [hp] at hid
      simp only [Bool.false_or, Bool.and_eq_true, decide_eq_true_eq] at hid
      rw [if_neg (by simp), if_neg (by omega), hid.2]
      exact hrest
    · rw [if_pos rfl]
      exact hrest

theorem range_split_at {i n : ℕ} (h : i < n) :
    List.range n = List.range' 0 i ++ i :: List.range' (i + 1) (n - i - 1) := by
  have h1 : List.range' 0 i ++ List.range' (0 + 1 * i) ((n - i - 1) + 1) =
      List.range' 0 (((n - i - 1) + 1) + i) := List.range'_append 0 i ((n - i - 1) + 1) 1
  have h2 : ((n - i - 1) + 1) + i = n := by omega
  have h3 : (0 + 1 * i) = i := by omega
  rw [h2, h3] at h1
  rw [List.range_eq_range', ← h1, List.range'_succ]

/-- C6.  The robust ray cast of `TrimmedDomain::IsInsideTrimmedDomain` on a
non-empty clipped mesh: when every target triangle yields a degenerate cast
— the ray towards its center is parallel to it, or the candidate scan breaks
on a boundary graze within `EPS3` — the loop exhausts all triangles and
classifies the point Outside; and when the first target triangle that
actually gets scanned finds an intersection with `t < EPS2` (the ray origin
lies on a triangle), the point is likewise reported as not inside. -/
theorem C6_degenerate_and_origin_casts (eps2 eps3 maxd : ℚ) (numTriangles : ℕ)
    (parallelTarget : ℕ → Bool) (query : ℕ → List CastHit) (i : ℕ)
    (hn : 0 < numTriangles) :
    ((∀ id < numTriangles,
        degenerateCast eps2 eps3 maxd parallelTarget query id = true) →
      IsInsideTrimmedDomain eps2 eps3 maxd numTriangles parallelTarget query = .ok false)
    ∧ (i < numTriangles →
        (∀ id < i, degenerateCast eps2 eps3 maxd parallelTarget query id = true) →
        parallelTarget i = false → (query i).length ≠ 0 →
        innerScan eps2 eps3 (query i) maxd false = .originOnBoundary →
        IsInsideTrimmedDomain eps2 eps3 maxd numTriangles parallelTarget query = .ok false) := by
  constructor
  · intro hdeg
    unfold IsInsideTrimmedDomain
    rw [if_neg (by omega)]
    exact isInsideLoop_all_degenerate eps2 eps3 maxd parallelTarget query
      (List.range numTriangles) (fun id hid => hdeg id (List.mem_range.mp hid))
  · intro hi hdeg hpar hne hscan
    unfold IsInsideTrimmedDomain
    rw [if_neg (by omega), range_split_at hi]
    refine isInsideLoop_origin_on_boundary eps2 eps3 maxd parallelTarget query i _
      hpar hne hscan (List.range' 0 i) (fun id hid => ?_)
    have := List.mem_range'_1.mp hid
    exact hdeg id (by omega)

/-- Witness for C6: a two-triangle mesh whose first target is parallel; in
the first part the second target grazes, in the second part the second
target's scan hits with `t < EPS2`. -/
theorem C6_degenerate_and_origin_casts_witness :
    (IsInsideTrimmedDomain 1 1 100 2 (fun id => decide (id = 0))
      (fun _ => [⟨true, 10, 0, 0, true, false⟩]) = .ok false)
    ∧ (IsInsideTrimmedDomain 1 1 100 2 (fun id => decide (id = 0))
      (fun _ => [⟨true, 0, 2, 2, true, false⟩]) = .ok false) :=
  ⟨(C6_degenerate_and_origin_casts 1 1 100 2 (fun id => decide (id = 0))
      (fun _ => [⟨true, 10, 0, 0, true, false⟩]) 1 (by decide)).1 (by decide),
   (C6_degenerate_and_origin_casts 1 1 100 2 (fun id => decide (id = 0))
      (fun _ => [⟨true, 0, 2, 2, true, false⟩]) 1 (by decide)).2 (by decide) (by decide)
      (by decide) (by decide) (by decide)⟩

/-! ### Structural lemmas on the elimination loop -/

theorem length_setWeights (l : List IntegrationPoint) (ws : List ℚ) :
    (setWeights l ws).length = min l.length ws.length := List.length_zipWith _ _ _

theorem length_setWeights_le (l : List IntegrationPoint) (ws : List ℚ) :
    (setWeights l ws).length ≤ l.length := by
  rw [length_setWeights]
  exact min_le_left _ _

theorem length_refitOf_le (fit : FitOracle) (s : ElimState) :
    (refitOf fit s).length ≤ s.pts.length := length_setWeights_le _ _

theorem sortDesc_perm (l : List IntegrationPoint) : List.Perm (sortDesc l) l :=
  List.perm_insertionSort weightGE l

theorem sortDesc_sorted (l : List IntegrationPoint) : List.Sorted weightGE (sortDesc l) :=
  List.sorted_insertionSort weightGE l

theorem length_sortDesc (l : List IntegrationPoint) : (sortDesc l).length = l.length :=
  (sortDesc_perm l).length_eq

theorem erasePassAux_spec (thr : ℚ) :
    ∀ (rest done : List IntegrationPoint) (cnt : ℕ),
      ((erasePassAux thr done rest cnt).1.length + (erasePassAux thr done rest cnt).2
        = done.length + rest.length + cnt)
      ∧ ∃ kept, (erasePassAux thr done rest cnt).1 = done ++ kept
          ∧ List.Sublist kept rest
          ∧ List.Sublist (rest.filter (fun p => !decide (p.weight < thr))) kept
  | [], done, cnt => by
    refine ⟨by simp [erasePassAux], [], by simp [erasePassAux], List.Sublist.refl _, by simp⟩
  | p :: rest, done, cnt => by
    by_cases hc : p.weight < thr ∧ 4 < done.length + (p :: rest).length
    · cases rest with
      | nil =>
        have heq : erasePassAux thr done [p] cnt = (done, cnt + 1) := by
          simp only [erasePassAux, if_pos hc]
        rw [heq]
        refine ⟨by simp only [List.length_cons, List.length_nil]; omega, [], by simp,
          List.nil_sublist _, ?_⟩
        rw [List.filter_cons_of_neg (by simp [hc.1]), List.filter_nil]
      | cons q rest' =>
        have heq : erasePassAux thr done (p :: q :: rest') cnt
            = erasePassAux thr (done ++ [q]) rest' (cnt + 1) := by
          simp only [erasePassAux, if_pos hc]
        obtain ⟨hlen, kept', hk, hsub, hfil⟩ := erasePassAux_spec thr rest' (done ++ [q]) (cnt + 1)
        rw [heq]
        have hlen' : (erasePassAux thr (done ++ [q]) rest' (cnt + 1)).1.length
            + (erasePassAux thr (done ++ [q]) rest' (cnt + 1)).2
            = done.length + (p :: q :: rest').length + cnt := by
          simp only [List.length_append, List.length_cons, List.length_nil] at hlen ⊢
          omega
        refine ⟨hlen', q :: kept', by rw [hk, List.append_assoc]; rfl,
          List.Sublist.cons p (List.Sublist.cons₂ q hsub), ?_⟩
        rw [List.filter_cons_of_neg (by simp [hc.1])]
        by_cases hq : q.weight < thr
        · rw [List.filter_cons_of_neg (by simp [hq])]
          exact hfil.trans (List.sublist_cons_self q kept')
        · rw [List.filter_cons_of_pos (by simp [hq])]
          exact List.Sublist.cons₂ q hfil
    · have heq : erasePassAux thr done (p :: rest) cnt
          = erasePassAux thr (done ++ [p]) rest cnt := by
        conv_lhs => rw [erasePassAux.eq_def]
        simp only [if_neg hc]
      obtain ⟨hlen, kept', hk, hsub, hfil⟩ := erasePassAux_spec thr rest (done ++ [p]) cnt
      rw [heq]
      have hlen' : (erasePassAux thr (done ++ [p]) rest cnt).1.length
          + (erasePassAux thr (done ++ [p]) rest cnt).2
          = done.length + (p :: rest).length + cnt := by
        simp only [List.length_append, List.length_cons, List.length_nil] at hlen ⊢
        omega
      refine ⟨hlen', p :: kept', by rw [hk, List.append_assoc]; rfl,
        List.Sublist.cons₂ p hsub, ?_⟩
      by_cases hp : p.weight < thr
      · rw [List.filter_cons_of_neg (by simp [hp])]
        exact hfil.trans (List.sublist_cons_self p kept')
      · rw [List.filter_cons_of_pos (by simp [hp])]
        exact List.Sublist.cons₂ p hfil

theorem erasePassAux_count_ge (thr : ℚ) (rest done : List IntegrationPoint) (cnt : ℕ) :
    cnt ≤ (erasePassAux thr done rest cnt).2 := by
  obtain ⟨hlen, kept, hk, hsub, -⟩ := erasePassAux_spec thr rest done cnt
  have h1 : (erasePassAux thr done rest cnt).1.length = done.length + kept.length := by
    rw [hk, List.length_append]
  have h2 := hsub.length_le
  omega

theorem erasePassAux_count_zero (thr : ℚ) :
    ∀ (rest done : List IntegrationPoint) (cnt : ℕ),
      (erasePassAux thr done rest cnt).2 = cnt →
      (erasePassAux thr done rest cnt).1 = done ++ rest
  | [], done, cnt, _ => by rw [List.append_nil]; rfl
  | p :: rest, done, cnt, h => by
    by_cases hc : p.weight < thr ∧ 4 < done.length + (p :: rest).length
    · exfalso
      cases rest with
      | nil =>
        have heq : erasePassAux thr done [p] cnt = (done, cnt + 1) := by
          simp only [erasePassAux, if_pos hc]
        rw [heq] at h
        omega
      | cons q rest' =>
        have heq : erasePassAux thr done (p :: q :: rest') cnt
            = erasePassAux thr (done ++ [q]) rest' (cnt + 1) := by
          simp only [erasePassAux, if_pos hc]
        rw [heq] at h
        have := erasePassAux_count_ge thr rest' (done ++ [q]) (cnt + 1)
        omega
    · have heq : erasePassAux thr done (p :: rest) cnt
          = erasePassAux thr (done ++ [p]) rest cnt := by
        conv_lhs => rw [erasePassAux.eq_def]
        simp only [if_neg hc]
      rw [heq] at h ⊢
      rw [erasePassAux_count_zero thr rest (done ++ [p]) cnt h, List.append_assoc]
      rfl

theorem minIdxAux_lt :
    ∀ (l : List IntegrationPoint) (b i : ℕ) (bv : ℚ),
      minIdxAux l b i bv = b ∨ minIdxAux l b i bv < i + l.length
  | [], b, i, bv => Or.inl rfl
  | p :: rest, b, i, bv => by
    simp only [minIdxAux]
    split
    · rcases minIdxAux_lt rest i (i + 1) p.weight with h | h
      · right
        rw [h]
        simp only [List.length_cons]
        omega
      · right
        simp only [List.length_cons]
        omega
    · rcases minIdxAux_lt rest b (i + 1) bv with h | h
      · exact Or.inl h
      · right
        simp only [List.length_cons]
        omega

theorem minWeightIdx_lt {l : List IntegrationPoint} (h : 0 < l.length) :
    minWeightIdx l < l.length := by
  unfold minWeightIdx
  rcases minIdxAux_lt l 0 0 (mkRat 10000000000 1) with h0 | h0
  · rw [h0]
    exact h
  · simpa using h0

theorem reducePts_sublist (eps1 : ℚ) (refit : List IntegrationPoint) :
    List.Sublist (reducePts eps1 refit) refit := by
  obtain ⟨-, kept, hk, hsub, -⟩ := erasePassAux_spec (eps1 * maxWeight refit) refit [] 0
  rw [List.nil_append] at hk
  simp only [reducePts]
  split
  · exact (List.eraseIdx_sublist _ _).trans (by rw [hk]; exact hsub)
  · rw [hk]
    exact hsub

theorem reducePts_len_lt (eps1 : ℚ) (refit : List IntegrationPoint)
    (h : reduceRemoved eps1 refit = true) :
    (reducePts eps1 refit).length < refit.length := by
  simp only [reduceRemoved, Bool.or_eq_true, decide_eq_true_eq] at h
  obtain ⟨hlen, kept, hk, hsub, -⟩ := erasePassAux_spec (eps1 * maxWeight refit) refit [] 0
  simp only [reducePts]
  rcases h with hcnt | ⟨hcnt, hlen4⟩
  · rw [if_neg (by omega)]
    simp only [List.length_nil, Nat.zero_add] at hlen
    omega
  · rw [if_pos ⟨hcnt, hlen4⟩]
    have hid := erasePassAux_count_zero (eps1 * maxWeight refit) refit [] 0 hcnt
    rw [List.nil_append] at hid
    rw [hid] at hlen4 ⊢
    rw [List.length_eraseIdx_of_lt (minWeightIdx_lt (by omega))]
    omega

theorem reduceRemoved_false (eps1 : ℚ) (refit : List IntegrationPoint)
    (h : reduceRemoved eps1 refit = false) :
    reducePts eps1 refit = refit ∧ refit.length ≤ 4 := by
  simp only [reduceRemoved, Bool.or_eq_false_iff, decide_eq_false_iff_not, not_lt,
    Nat.le_zero] at h
  have hid := erasePassAux_count_zero (eps1 * maxWeight refit) refit [] 0 h.1
  rw [List.nil_append] at hid
  have hlen : ¬ 4 < refit.length := by
    intro hl
    exact h.2 ⟨h.1, by rw [hid]; exact hl⟩
  constructor
  · simp only [reducePts]
    rw [if_neg (fun hc => h.2 hc), hid]
  · omega

theorem elimReduce_guard_removed (eps1 allowed : ℚ) (refit : List IntegrationPoint)
    (s : ElimState) (res1 : ℚ)
    (hg : elimGuard allowed (elimReduce eps1 refit s res1) = true) :
    reduceRemoved eps1 refit = true := by
  by_cases hrem : reduceRemoved eps1 refit = true
  · exact hrem
  · exfalso
    have hremf : reduceRemoved eps1 refit = false := by
      simpa using hrem
    obtain ⟨hpts, hlen4⟩ := reduceRemoved_false eps1 refit hremf
    have h1 : (elimReduce eps1 refit s res1).removed = false := hremf
    have h2 : (elimReduce eps1 refit s res1).iters = 1011 := by
      show (if (reducePts eps1 refit).length ≤ 4 ∧ reduceRemoved eps1 refit = false
            then 1000 + 10 else s.iters) + 1 = 1011
      rw [if_pos ⟨by rw [hpts]; exact hlen4, hremf⟩]
    unfold elimGuard at hg
    rw [h1, h2] at hg
    simp at hg

theorem elimBody_shrink (fit : FitOracle) (nFun : ℕ) (allowed eps1 : ℚ) (s : ElimState)
    (hit : s.iters ≠ 0)
    (hg : elimGuard allowed (elimBody fit nFun allowed eps1 s) = true) :
    (elimBody fit nFun allowed eps1 s).pts.length < s.pts.length := by
  unfold elimBody at hg ⊢
  rw [if_neg hit] at hg ⊢
  by_cases hres : resOf fit s < allowed
  · rw [if_pos hres] at hg ⊢
    have hrem := elimReduce_guard_removed eps1 allowed (refitOf fit s) s (resOf fit s) hg
    calc (elimReduce eps1 (refitOf fit s) s (resOf fit s)).pts.length
        < (refitOf fit s).length := reducePts_len_lt eps1 (refitOf fit s) hrem
      _ ≤ s.pts.length := length_refitOf_le fit s
  · rw [if_neg hres] at hg
    exfalso
    unfold elimGuard at hg
    simp [hres] at hg

theorem elimBody_iters_ne_zero (fit : FitOracle) (nFun : ℕ) (allowed eps1 : ℚ)
    (s : ElimState) : (elimBody fit nFun allowed eps1 s).iters ≠ 0 := by
  unfold elimBody
  split
  · exact Nat.succ_ne_zero _
  · split
    · exact Nat.succ_ne_zero _
    · exact Nat.succ_ne_zero _

theorem elimRun_guard_false (fit : FitOracle) (nFun : ℕ) (allowed eps1 : ℚ) :
    ∀ (fuel : ℕ) (s : ElimState), elimGuard allowed s = false →
      elimRun fit nFun allowed eps1 fuel s = s
  | 0, _, _ => rfl
  | fuel + 1, s, h => by simp [elimRun, h]

theorem elimRun_succ (fit : FitOracle) (nFun : ℕ) (allowed eps1 : ℚ) (fuel : ℕ)
    (s : ElimState) (hg : elimGuard allowed s = true) :
    elimRun fit nFun allowed eps1 (fuel + 1) s
      = elimRun fit nFun allowed eps1 fuel (elimBody fit nFun allowed eps1 s) := by
  simp [elimRun, hg]

theorem elimRun_term (fit : FitOracle) (nFun : ℕ) (allowed eps1 : ℚ) (n : ℕ) :
    ∀ (fuel : ℕ) (s : ElimState), s.iters ≠ 0 → s.pts.length ≤ n → n < fuel →
      elimGuard allowed (elimRun fit nFun allowed eps1 fuel s) = false := by
  induction n with
  | zero =>
    intro fuel s hit hlen hfuel
    match fuel, hfuel with
    | fuel + 1, _ =>
      by_cases hg : elimGuard allowed s = true
      · have hg2 : elimGuard allowed (elimBody fit nFun allowed eps1 s) = false := by
          by_contra hcon
          have hcon' : elimGuard allowed (elimBody fit nFun allowed eps1 s) = true := by
            simpa using hcon
          have := elimBody_shrink fit nFun allowed eps1 s hit hcon'
          omega
        rw [elimRun_succ fit nFun allowed eps1 fuel s hg,
          elimRun_guard_false fit nFun allowed eps1 fuel _ hg2]
        exact hg2
      · have hgf : elimGuard allowed s = false := by simpa using hg
        rw [elimRun_guard_false fit nFun allowed eps1 (fuel + 1) s hgf]
        exact hgf
  | succ n ih =>
    intro fuel s hit hlen hfuel
    match fuel, hfuel with
    | fuel + 1, _ =>
      by_cases hg : elimGuard allowed s = true
      · by_cases hg2 : elimGuard allowed (elimBody fit nFun allowed eps1 s) = true
        · have hsh := elimBody_shrink fit nFun allowed eps1 s hit hg2
          rw [elimRun_succ fit nFun allowed eps1 fuel s hg]
          exact ih fuel (elimBody fit nFun allowed eps1 s)
            (elimBody_iters_ne_zero fit nFun allowed eps1 s) (by omega) (by omega)
        · have hg2f : elimGuard allowed (elimBody fit nFun allowed eps1 s) = false := by
            simpa using hg2
          rw [elimRun_succ fit nFun allowed eps1 fuel s hg,
            elimRun_guard_false fit nFun allowed eps1 fuel _ hg2f]
          exact hg2f
      · have hgf : elimGuard allowed s = false := by simpa using hg
        rw [elimRun_guard_false fit nFun allowed eps1 (fuel + 1) s hgf]
        exact hgf

theorem elimBody_inv (fit : FitOracle) (nFun : ℕ) (allowed eps1 : ℚ) (s : ElimState)
    (h1 : s.pts.length ≤ nFun) (h2 : s.prevSol.length ≤ nFun) (h3 : s.iters ≠ 0) :
    (elimBody fit nFun allowed eps1 s).pts.length ≤ nFun
    ∧ (elimBody fit nFun allowed eps1 s).prevSol.length ≤ nFun
    ∧ (elimBody fit nFun allowed eps1 s).iters ≠ 0 := by
  unfold elimBody
  rw [if_neg h3]
  have hr : (refitOf fit s).length ≤ nFun := le_trans (length_refitOf_le fit s) h1
  by_cases hres : resOf fit s < allowed
  · rw [if_pos hres]
    exact ⟨le_trans (reducePts_sublist eps1 _).length_le hr, hr, Nat.succ_ne_zero _⟩
  · rw [if_neg hres]
    exact ⟨hr, h2, Nat.succ_ne_zero _⟩

theorem elimRun_inv (fit : FitOracle) (nFun : ℕ) (allowed eps1 : ℚ) :
    ∀ (fuel : ℕ) (s : ElimState),
      s.pts.length ≤ nFun → s.prevSol.length ≤ nFun → s.iters ≠ 0 →
      (elimRun fit nFun allowed eps1 fuel s).pts.length ≤ nFun
      ∧ (elimRun fit nFun allowed eps1 fuel s).prevSol.length ≤ nFun
  | 0, _, h1, h2, _ => ⟨h1, h2⟩
  | fuel + 1, s, h1, h2, h3 => by
    by_cases hg : elimGuard allowed s = true
    · obtain ⟨k1, k2, k3⟩ := elimBody_inv fit nFun allowed eps1 s h1 h2 h3
      rw [elimRun_succ fit nFun allowed eps1 fuel s hg]
      exact elimRun_inv fit nFun allowed eps1 fuel _ k1 k2 k3
    · rw [elimRun_guard_false fit nFun allowed eps1 (fuel + 1) s (by simpa using hg)]
      exact ⟨h1, h2⟩

theorem elimBody_round0 (fit : FitOracle) (nFun : ℕ) (allowed eps1 : ℚ) (s : ElimState)
    (h : s.iters = 0) :
    (elimBody fit nFun allowed eps1 s).pts.length ≤ nFun
    ∧ (elimBody fit nFun allowed eps1 s).prevSol = s.prevSol
    ∧ (elimBody fit nFun allowed eps1 s).iters ≠ 0 := by
  unfold elimBody
  rw [if_pos h]
  refine ⟨?_, rfl, Nat.succ_ne_zero _⟩
  show ((sortDesc (refitOf fit s)).take nFun).length ≤ nFun
  rw [List.length_take]
  exact min_le_left _ _

theorem elimFinish_len_le {allowed eps4 : ℚ} {s : ElimState} {n : ℕ}
    (h1 : s.pts.length ≤ n) (h2 : s.prevSol.length ≤ n) :
    (elimFinish allowed eps4 s).1.length ≤ n := by
  unfold elimFinish
  split
  · exact le_trans (List.length_filter_le _ _) h2
  · exact le_trans (List.length_filter_le _ _) h1

/-- C3 counterexample.  In round 1 of the concrete run `c3S1 → c3S2`, the
residual (0) is below the target (1), the refitted list holds 5 > 4 points
with weights `0 0 8 8 8`, and the removal threshold is
`ε_rel · max w = (1/2)·8 = 4`.  The claim says every point with weight below
the threshold is removed that round; but the in-place erase skips the
element shifted into the erased slot, so exactly one of the two
below-threshold points survives the round. -/
theorem C3_counterexample :
    (c3Fit (positions c3S1.pts)).1 < 1 ∧ c3S1.iters = 1 ∧ 4 < c3Refit.length
    ∧ (c3S2.pts.filter
        (fun p => decide (p.weight < mkRat 1 2 * maxWeight c3Refit))).length = 1 := by
  with_unfolding_all decide

/-- C3 as amended, stated on one execution of the loop body.  Round 0 keeps
exactly the `min N M` points of largest weight.  A later round whose NNLS
residual is below the target remembers the refitted solution as last-good
and then removes points as follows: the result is a sublist of the refitted
points; when the erase pass removed something, every point at or above the
threshold `ε_rel·max w` survives (so only below-threshold points are
removed, but — unlike the claim — not necessarily all of them, since the
pass skips the successor of each erased point and stops erasing once only 4
points remain); when the pass removed nothing while more than 4 points
remain, exactly the first minimal-weight point is removed; and if after the
round at most 4 points remain and nothing was removed, the loop guard is
false (the loop stops).  A later round whose residual has reached the target
removes nothing and the loop stops. -/
theorem C3_amended_rounds (fit : FitOracle) (nFun : ℕ) (allowed eps1 : ℚ) (s : ElimState) :
    (s.iters = 0 →
      ∃ dropped, List.Perm ((elimBody fit nFun allowed eps1 s).pts ++ dropped) (refitOf fit s)
        ∧ (∀ p ∈ (elimBody fit nFun allowed eps1 s).pts, ∀ q ∈ dropped, q.weight ≤ p.weight)
        ∧ (elimBody fit nFun allowed eps1 s).pts.length = min nFun (refitOf fit s).length)
    ∧ (s.iters ≠ 0 → resOf fit s < allowed →
        (elimBody fit nFun allowed eps1 s).prevSol = refitOf fit s
        ∧ (elimBody fit nFun allowed eps1 s).prevRes = resOf fit s
        ∧ List.Sublist (elimBody fit nFun allowed eps1 s).pts (refitOf fit s)
        ∧ (0 < (erasePassAux (eps1 * maxWeight (refitOf fit s)) [] (refitOf fit s) 0).2 →
            List.Sublist ((refitOf fit s).filter
                (fun p => !decide (p.weight < eps1 * maxWeight (refitOf fit s))))
              (elimBody fit nFun allowed eps1 s).pts)
        ∧ ((erasePassAux (eps1 * maxWeight (refitOf fit s)) [] (refitOf fit s) 0).2 = 0
              ∧ 4 < (refitOf fit s).length →
            (elimBody fit nFun allowed eps1 s).pts
              = (refitOf fit s).eraseIdx (minWeightIdx (refitOf fit s)))
        ∧ ((elimBody fit nFun allowed eps1 s).pts.length ≤ 4
              ∧ (elimBody fit nFun allowed eps1 s).removed = false →
            elimGuard allowed (elimBody fit nFun allowed eps1 s) = false))
    ∧ (s.iters ≠ 0 → ¬ resOf fit s < allowed →
        (elimBody fit nFun allowed eps1 s).pts = refitOf fit s
        ∧ elimGuard allowed (elimBody fit nFun allowed eps1 s) = false) := by
  refine ⟨?_, ?_, ?_⟩
  · intro h0
    unfold elimBody
    rw [if_pos h0]
    refine ⟨(sortDesc (refitOf fit s)).drop nFun, ?_, ?_, ?_⟩
    · show List.Perm ((sortDesc (refitOf fit s)).take nFun
        ++ (sortDesc (refitOf fit s)).drop nFun) (refitOf fit s)
      rw [List.take_append_drop]
      exact sortDesc_perm _
    · intro p hp q hq
      have hsorted := sortDesc_sorted (refitOf fit s)
      rw [← List.take_append_drop nFun (sortDesc (refitOf fit s))] at hsorted
      exact (List.pairwise_append.mp hsorted).2.2 p hp q hq
    · show ((sortDesc (refitOf fit s)).take nFun).length = min nFun (refitOf fit s).length
      rw [List.length_take, length_sortDesc]
  · intro hit hres
    unfold elimBody
    rw [if_neg hit, if_pos hres]
    obtain ⟨-, kept, hk, -, hfil⟩ :=
      erasePassAux_spec (eps1 * maxWeight (refitOf fit s)) (refitOf fit s) [] 0
    rw [List.nil_append] at hk
    refine ⟨rfl, rfl, reducePts_sublist eps1 (refitOf fit s), ?_, ?_, ?_⟩
    · intro hcnt
      show List.Sublist _ (reducePts eps1 (refitOf fit s))
      simp only [reducePts]
      rw [if_neg (by omega), hk]
      exact hfil
    · rintro ⟨hcnt, hlen4⟩
      have hid := erasePassAux_count_zero (eps1 * maxWeight (refitOf fit s))
        (refitOf fit s) [] 0 hcnt
      rw [List.nil_append] at hid
      show reducePts eps1 (refitOf fit s) = _
      simp only [reducePts]
      rw [if_pos ⟨hcnt, by rw [hid]; exact hlen4⟩, hid]
    · rintro ⟨-, hrem⟩
      by_contra hcon
      have hg : elimGuard allowed
          (elimReduce eps1 (refitOf fit s) s (resOf fit s)) = true := by
        simpa using hcon
      have htrue := elimReduce_guard_removed eps1 allowed (refitOf fit s) s (resOf fit s) hg
      have hrem' : reduceRemoved eps1 (refitOf fit s) = false := hrem
      rw [htrue] at hrem'
      cases hrem'
  · intro hit hres
    unfold elimBody
    rw [if_neg hit, if_neg hres]
    refine ⟨rfl, ?_⟩
    unfold elimGuard
    simp [hres]

/-- Witness for C3 at the concrete run: round 0 from the seed state, a
reduction round at `c3S1` (residual 0 < target 1), and a stopping round at
`c3S1` with target 0 (residual 0 has reached it). -/
theorem C3_amended_rounds_witness :
    (∃ dropped,
      List.Perm ((elimBody c3Fit 5 1 (mkRat 1 2) (elimInit 0 c3Pts0)).pts ++ dropped)
        (refitOf c3Fit (elimInit 0 c3Pts0))
      ∧ (∀ p ∈ (elimBody c3Fit 5 1 (mkRat 1 2) (elimInit 0 c3Pts0)).pts, ∀ q ∈ dropped,
          q.weight ≤ p.weight)
      ∧ (elimBody c3Fit 5 1 (mkRat 1 2) (elimInit 0 c3Pts0)).pts.length
          = min 5 (refitOf c3Fit (elimInit 0 c3Pts0)).length)
    ∧ ((elimBody c3Fit 5 1 (mkRat 1 2) c3S1).prevSol = refitOf c3Fit c3S1
      ∧ (elimBody c3Fit 5 1 (mkRat 1 2) c3S1).prevRes = resOf c3Fit c3S1
      ∧ List.Sublist (elimBody c3Fit 5 1 (mkRat 1 2) c3S1).pts (refitOf c3Fit c3S1)
      ∧ (0 < (erasePassAux (mkRat 1 2 * maxWeight (refitOf c3Fit c3S1)) []
            (refitOf c3Fit c3S1) 0).2 →
          List.Sublist ((refitOf c3Fit c3S1).filter
              (fun p => !decide (p.weight < mkRat 1 2 * maxWeight (refitOf c3Fit c3S1))))
            (elimBody c3Fit 5 1 (mkRat 1 2) c3S1).pts)
      ∧ ((erasePassAux (mkRat 1 2 * maxWeight (refitOf c3Fit c3S1)) []
            (refitOf c3Fit c3S1) 0).2 = 0 ∧ 4 < (refitOf c3Fit c3S1).length →
          (elimBody c3Fit 5 1 (mkRat 1 2) c3S1).pts
            = (refitOf c3Fit c3S1).eraseIdx (minWeightIdx (refitOf c3Fit c3S1)))
      ∧ ((elimBody c3Fit 5 1 (mkRat 1 2) c3S1).pts.length ≤ 4
            ∧ (elimBody c3Fit 5 1 (mkRat 1 2) c3S1).removed = false →
          elimGuard 1 (elimBody c3Fit 5 1 (mkRat 1 2) c3S1) = false))
    ∧ ((elimBody c3Fit 5 0 (mkRat 1 2) c3S1).pts = refitOf c3Fit c3S1
      ∧ elimGuard 0 (elimBody c3Fit 5 0 (mkRat 1 2) c3S1) = false) :=
  ⟨(C3_amended_rounds c3Fit 5 1 (mkRat 1 2) (elimInit 0 c3Pts0)).1 rfl,
   (C3_amended_rounds c3Fit 5 1 (mkRat 1 2) c3S1).2.1 (by decide) (by decide),
   (C3_amended_rounds c3Fit 5 0 (mkRat 1 2) c3S1).2.2 (by decide) (by decide)⟩

/-! ### Lemmas on the outer seeding-and-retry loop -/

theorem trimmedOuterBody_cutoff (fit : FitOracle) (seed : ℕ → List IntegrationPoint)
    (nFun : ℕ) (allowed eps1 eps4 mind : ℚ) (st : TrimmedFitState)
    (h : mkRat 1 100 < (trimmedOuterBody fit seed nFun allowed eps1 eps4 mind st).residual) :
    (trimmedOuterBody fit seed nFun allowed eps1 eps4 mind st).elementPts = [] := by
  simp only [trimmedOuterBody] at h ⊢
  rw [if_pos h]

theorem trimmedLoop_cutoff (fit : FitOracle) (seed : ℕ → List IntegrationPoint)
    (nFun : ℕ) (allowed eps1 eps4 mind : ℚ) :
    ∀ (fuel : ℕ) (st : TrimmedFitState),
      (mkRat 1 100 < st.residual → st.elementPts = []) →
      (mkRat 1 100 < (trimmedLoop fit seed nFun allowed eps1 eps4 mind fuel st).residual →
        (trimmedLoop fit seed nFun allowed eps1 eps4 mind fuel st).elementPts = [])
  | 0, _, h => h
  | fuel + 1, st, h => by
    simp only [trimmedLoop]
    split
    · exact trimmedLoop_cutoff fit seed nFun allowed eps1 eps4 mind fuel _
        (trimmedOuterBody_cutoff fit seed nFun allowed eps1 eps4 mind st)
    · exact h

theorem trimmedLoop_iter_factor (fit : FitOracle) (seed : ℕ → List IntegrationPoint)
    (nFun : ℕ) (allowed eps1 eps4 mind : ℚ) :
    ∀ (fuel : ℕ) (st : TrimmedFitState),
      st.iteration ≤ (trimmedLoop fit seed nFun allowed eps1 eps4 mind fuel st).iteration
      ∧ (trimmedLoop fit seed nFun allowed eps1 eps4 mind fuel st).iteration
          ≤ max 4 st.iteration
      ∧ (trimmedLoop fit seed nFun allowed eps1 eps4 mind fuel st).factor
          = st.factor * 2 ^ ((trimmedLoop fit seed nFun allowed eps1 eps4 mind fuel st).iteration
              - st.iteration)
  | 0, st => ⟨Nat.le_refl _, Nat.le_max_right _ _, by
      show st.factor = st.factor * 2 ^ (st.iteration - st.iteration)
      simp⟩
  | fuel + 1, st => by
    simp only [trimmedLoop]
    split
    next hguard =>
      obtain ⟨h1, h2, h3⟩ := trimmedLoop_iter_factor fit seed nFun allowed eps1 eps4 mind fuel
        (trimmedOuterBody fit seed nFun allowed eps1 eps4 mind st)
      have hb1 : (trimmedOuterBody fit seed nFun allowed eps1 eps4 mind st).iteration
          = st.iteration + 1 := rfl
      have hb2 : (trimmedOuterBody fit seed nFun allowed eps1 eps4 mind st).factor
          = st.factor * 2 := rfl
      rw [hb1] at h1 h2 h3
      rw [hb2] at h3
      refine ⟨by omega, ?_, ?_⟩
      · have h4 : st.iteration + 1 ≤ 4 := hguard.2
        calc (trimmedLoop fit seed nFun allowed eps1 eps4 mind fuel
              (trimmedOuterBody fit seed nFun allowed eps1 eps4 mind st)).iteration
            ≤ max 4 (st.iteration + 1) := h2
          _ = 4 := Nat.max_eq_left h4
          _ ≤ max 4 st.iteration := Nat.le_max_left _ _
      · rw [h3]
        have hk : (trimmedLoop fit seed nFun allowed eps1 eps4 mind fuel
            (trimmedOuterBody fit seed nFun allowed eps1 eps4 mind st)).iteration
              - st.iteration
            = ((trimmedLoop fit seed nFun allowed eps1 eps4 mind fuel
              (trimmedOuterBody fit seed nFun allowed eps1 eps4 mind st)).iteration
              - (st.iteration + 1)) + 1 := by omega
        rw [hk, pow_succ]
        ring
    next =>
      exact ⟨Nat.le_refl _, Nat.le_max_right _ _, by simp⟩

/-- C4.  After `CreateIntegrationPointsTrimmed`, a residual above the hard
cutoff `1e-2` forces an empty point list (the cell is emptied in the same
outer round that produced that residual); and the per-cell branch of
`QuESo::Compute` never publishes a trimmed element whose moment fitting
emitted no points. -/
theorem C4_hard_cutoff_and_empty_skip (fit : FitOracle) (seed : ℕ → List IntegrationPoint)
    (nFun : ℕ) (allowed eps1 eps4 mind maxd : ℚ) (f0 : ℕ) (ggq : Bool)
    (gaussPts : List IntegrationPoint) :
    (mkRat 1 100
        < (CreateIntegrationPointsTrimmed fit seed nFun allowed eps1 eps4 mind maxd f0).residual →
      (CreateIntegrationPointsTrimmed fit seed nFun allowed eps1 eps4 mind maxd f0).elementPts
        = [])
    ∧ ((CreateIntegrationPointsTrimmed fit seed nFun allowed eps1 eps4 mind maxd f0).elementPts
          = [] →
        computeCell fit seed nFun allowed eps1 eps4 mind maxd f0 true ggq .Trimmed true
          gaussPts = none) := by
  constructor
  · exact trimmedLoop_cutoff fit seed nFun allowed eps1 eps4 mind 4
      { residual := maxd, elementPts := [], factor := f0, iteration := 0 } (fun _ => rfl)
  · intro h
    simp [computeCell, h]

/-- Witness for C4: an NNLS oracle with constant residual 1 and an octree
that seeds nothing; the run ends with residual 1 above the cutoff and an
empty element, which `QuESo::Compute` then skips. -/
theorem C4_hard_cutoff_and_empty_skip_witness :
    (CreateIntegrationPointsTrimmed (fun _ => (1, [])) (fun _ => []) 1 2 1 1 0 100 2).elementPts
      = []
    ∧ computeCell (fun _ => (1, [])) (fun _ => []) 1 2 1 1 0 100 2 true false .Trimmed true []
      = none :=
  ⟨(C4_hard_cutoff_and_empty_skip (fun _ => (1, [])) (fun _ => []) 1 2 1 1 0 100 2
      false []).1 (by with_unfolding_all decide),
   (C4_hard_cutoff_and_empty_skip (fun _ => (1, [])) (fun _ => []) 1 2 1 1 0 100 2
      false []).2 (by with_unfolding_all decide)⟩

/-- C5.  The elimination loop exits its guard within 1000 rounds whenever
`N + 2 ≤ 1000` (every admissible polynomial order gives `N ≤ 125`, far
below the cap; each round after the first either removes a point from a
list that round 0 already cut to at most `N` entries, or is the last); and
the outer loop of `CreateIntegrationPointsTrimmed` runs at most 4 times,
doubling the seeding distribution factor on every retry, so the final
factor is `f0·2^k` after `k ≤ 4` rounds. -/
theorem C5_iteration_caps (fit : FitOracle) (seed : ℕ → List IntegrationPoint)
    (nFun : ℕ) (allowed eps1 eps4 mind maxd : ℚ) (f0 : ℕ)
    (pts0 : List IntegrationPoint) :
    (nFun + 2 ≤ 1000 →
      elimGuard allowed (elimRun fit nFun allowed eps1 1000 (elimInit mind pts0)) = false)
    ∧ (CreateIntegrationPointsTrimmed fit seed nFun allowed eps1 eps4 mind maxd f0).iteration
        ≤ 4
    ∧ (CreateIntegrationPointsTrimmed fit seed nFun allowed eps1 eps4 mind maxd f0).factor
        = f0 * 2 ^ (CreateIntegrationPointsTrimmed fit seed nFun allowed eps1 eps4
            mind maxd f0).iteration := by
  refine ⟨?_, ?_, ?_⟩
  · intro hcap
    by_cases hg : elimGuard allowed (elimInit mind pts0) = true
    · have h1000 : (1000 : ℕ) = 999 + 1 := rfl
      rw [h1000, elimRun_succ fit nFun allowed eps1 999 (elimInit mind pts0) hg]
      obtain ⟨k1, -, k3⟩ := elimBody_round0 fit nFun allowed eps1 (elimInit mind pts0) rfl
      exact elimRun_term fit nFun allowed eps1 nFun 999
        (elimBody fit nFun allowed eps1 (elimInit mind pts0)) k3 k1 (by omega)
    · have hgf : elimGuard allowed (elimInit mind pts0) = false := by simpa using hg
      rw [elimRun_guard_false fit nFun allowed eps1 1000 _ hgf]
      exact hgf
  · exact (trimmedLoop_iter_factor fit seed nFun allowed eps1 eps4 mind 4
      { residual := maxd, elementPts := [], factor := f0, iteration := 0 }).2.1
  · have := (trimmedLoop_iter_factor fit seed nFun allowed eps1 eps4 mind 4
      { residual := maxd, elementPts := [], factor := f0, iteration := 0 }).2.2
    simpa using this

/-- Witness for C5 with `N = 1`. -/
theorem C5_iteration_caps_witness :
    (elimGuard 1 (elimRun (fun _ => (0, [5])) 1 1 1 1000 (elimInit 0 [⟨0, 0, 0, 2⟩])) = false)
    ∧ (CreateIntegrationPointsTrimmed (fun _ => (0, [5])) (fun _ => []) 1 1 1 1 0 100 2).iteration
        ≤ 4
    ∧ (CreateIntegrationPointsTrimmed (fun _ => (0, [5])) (fun _ => []) 1 1 1 1 0 100
          2).factor
        = 2 * 2 ^ (CreateIntegrationPointsTrimmed (fun _ => (0, [5])) (fun _ => []) 1 1 1 1 0
            100 2).iteration :=
  ⟨(C5_iteration_caps (fun _ => (0, [5])) (fun _ => []) 1 1 1 1 0 100 2 [⟨0, 0, 0, 2⟩]).1
      (by decide),
   (C5_iteration_caps (fun _ => (0, [5])) (fun _ => []) 1 1 1 1 0 100 2 [⟨0, 0, 0, 2⟩]).2.1,
   (C5_iteration_caps (fun _ => (0, [5])) (fun _ => []) 1 1 1 1 0 100 2 [⟨0, 0, 0, 2⟩]).2.2⟩

/-- C9.  A published trimmed element carries at most
`N = (p_u+1)(p_v+1)(p_w+1)` integration points: round 0 cuts the candidate
list to the `N` heaviest points, later rounds only remove points (and the
remembered last-good solution is a refit of such a list), and the final
write-back only filters; the outer loop publishes either such a list or an
emptied one.  The target residual must exceed `MIND` (it always does: the
default is `1e-10` and `MIND` is the smallest positive double), or the loop
would not run at all. -/
theorem C9_at_most_N_points (fit : FitOracle) (seed : ℕ → List IntegrationPoint)
    (nFun : ℕ) (allowed eps1 eps4 mind maxd : ℚ) (f0 : ℕ)
    (pts0 : List IntegrationPoint) (hma : mind < allowed) :
    (PointElimination fit nFun allowed eps1 eps4 mind pts0).1.length ≤ nFun
    ∧ (CreateIntegrationPointsTrimmed fit seed nFun allowed eps1 eps4 mind maxd f0).elementPts.length
        ≤ nFun := by
  have hpe : ∀ q : List IntegrationPoint,
      (PointElimination fit nFun allowed eps1 eps4 mind q).1.length ≤ nFun := by
    intro q
    unfold PointElimination
    have hg : elimGuard allowed (elimInit mind q) = true := by
      simp [elimGuard, elimInit, hma]
    have hfuel : q.length + nFun + 3 = (q.length + nFun + 2) + 1 := rfl
    rw [hfuel, elimRun_succ fit nFun allowed eps1 (q.length + nFun + 2) (elimInit mind q) hg]
    obtain ⟨k1, k2, k3⟩ := elimBody_round0 fit nFun allowed eps1 (elimInit mind q) rfl
    have hprev : (elimBody fit nFun allowed eps1 (elimInit mind q)).prevSol.length ≤ nFun := by
      rw [k2]
      exact Nat.zero_le nFun
    obtain ⟨m1, m2⟩ := elimRun_inv fit nFun allowed eps1 (q.length + nFun + 2)
      (elimBody fit nFun allowed eps1 (elimInit mind q)) k1 hprev k3
    exact elimFinish_len_le m1 m2
  refine ⟨hpe pts0, ?_⟩
  have hloop : ∀ (fuel : ℕ) (st : TrimmedFitState), st.elementPts.length ≤ nFun →
      (trimmedLoop fit seed nFun allowed eps1 eps4 mind fuel st).elementPts.length ≤ nFun := by
    intro fuel
    induction fuel with
    | zero => intro st h; exact h
    | succ fuel ih =>
      intro st h
      simp only [trimmedLoop]
      split
      · refine ih _ ?_
        show (if mkRat 1 100 < (PointElimination fit nFun allowed eps1 eps4 mind
              (seed (nFun * st.factor) ++ st.elementPts)).2
            then []
            else (PointElimination fit nFun allowed eps1 eps4 mind
              (seed (nFun * st.factor) ++ st.elementPts)).1).length ≤ nFun
        split
        · simp
        · exact hpe _
      · exact h
  exact hloop 4 { residual := maxd, elementPts := [], factor := f0, iteration := 0 }
    (by simp)

/-- Witness for C9 with `N = 1` and a two-point seed. -/
theorem C9_at_most_N_points_witness :
    (PointElimination (fun _ => (0, [5, 7])) 1 1 1 1 0
        [⟨0, 0, 0, 2⟩, ⟨1, 0, 0, 3⟩]).1.length ≤ 1
    ∧ (CreateIntegrationPointsTrimmed (fun _ => (0, [5, 7])) (fun _ => []) 1 1 1 1 0 100
          2).elementPts.length ≤ 1 :=
  C9_at_most_N_points (fun _ => (0, [5, 7])) (fun _ => []) 1 1 1 1 0 100 2
    [⟨0, 0, 0, 2⟩, ⟨1, 0, 0, 3⟩] (by decide)

/-! ### Lemmas on the STL facet loop -/

theorem snapEquiv_comm (snaptol : ℚ) (a b : Vec3) :
    snapEquiv snaptol a b = snapEquiv snaptol b a := by
  unfold snapEquiv
  rw [Bool.and_comm]

theorem insertVertex_mesh_fields (snaptol : ℚ) (st : MeshState) (v : Vec3) :
    (insertVertex snaptol st v).1.triangles = st.triangles
    ∧ (insertVertex snaptol st v).1.normals = st.normals := by
  unfold insertVertex
  rcases hf : st.indexMap.find? (fun e => snapEquiv snaptol e.1 v) with _ | e <;>
    rw [hf] <;> exact ⟨rfl, rfl⟩

theorem insertVertex_found (snaptol : ℚ) (st : MeshState) (v : Vec3)
    (h : ∃ e ∈ st.indexMap, snapEquiv snaptol e.1 v = true) :
    (insertVertex snaptol st v).1 = st := by
  unfold insertVertex
  rcases hf : st.indexMap.find? (fun e => snapEquiv snaptol e.1 v) with _ | e
  · exfalso
    obtain ⟨e, he, heq⟩ := h
    have := List.find?_eq_none.mp hf e he
    simp [heq] at this
  · rw [hf]

theorem insertVertex_inv (snaptol : ℚ) (st : MeshState) (v : Vec3)
    (h : MeshInv snaptol st) : MeshInv snaptol (insertVertex snaptol st v).1 := by
  obtain ⟨h1, h2, h3⟩ := h
  unfold insertVertex
  rcases hf : st.indexMap.find? (fun e => snapEquiv snaptol e.1 v) with _ | e
  all_goals rw [hf]
  · refine ⟨?_, ?_, ?_⟩
    · show st.vertices ++ [v] = (st.indexMap ++ [(v, st.nextIndex)]).map Prod.fst
      rw [List.map_append, h1]
      rfl
    · show (st.indexMap ++ [(v, st.nextIndex)]).map Prod.snd = List.range (st.nextIndex + 1)
      rw [List.map_append, h2, List.range_succ]
      rfl
    · show List.Pairwise _ (st.indexMap ++ [(v, st.nextIndex)])
      rw [List.pairwise_append]
      refine ⟨h3, List.pairwise_singleton _ _, ?_⟩
      intro a ha b hb
      rw [List.mem_singleton] at hb
      subst hb
      have hnone := List.find?_eq_none.mp hf a ha
      simpa using hnone
  · exact ⟨h1, h2, h3⟩

theorem processFacet_inv (snaptol : ℚ) (len : Vec3 → ℚ) (zerotol : ℚ) (st : MeshState)
    (f : STLFacet) (h : MeshInv snaptol st) :
    MeshInv snaptol (processFacet snaptol len zerotol st f) := by
  have h1 := insertVertex_inv snaptol st f.v1 h
  have h2 := insertVertex_inv snaptol (insertVertex snaptol st f.v1).1 f.v2 h1
  have h3 := insertVertex_inv snaptol
    (insertVertex snaptol (insertVertex snaptol st f.v1).1 f.v2).1 f.v3 h2
  unfold processFacet
  split
  · exact h3
  · exact h3

theorem readSTLFacets_inv_aux (snaptol : ℚ) (len : Vec3 → ℚ) (zerotol : ℚ) :
    ∀ (facets : List STLFacet) (st : MeshState), MeshInv snaptol st →
      MeshInv snaptol (facets.foldl (processFacet snaptol len zerotol) st)
  | [], _, h => h
  | f :: fs, st, h =>
    readSTLFacets_inv_aux snaptol len zerotol fs _
      (processFacet_inv snaptol len zerotol st f h)

/-- C8 counterexample: a single facet with stored normal `(0,0,0)` and a
non-degenerate triangle.  The claim says the facet is kept with a normal
recomputed from its edges; the code drops it (no triangle, no normal is
appended), while its three vertices do enter the snapping map. -/
theorem C8_counterexample :
    (readSTLFacets (mkRat 1 1000) (fun _ => 0) 0 [c8Facet]).triangles = []
    ∧ (readSTLFacets (mkRat 1 1000) (fun _ => 0) 0 [c8Facet]).normals = []
    ∧ (readSTLFacets (mkRat 1 1000) (fun _ => 0) 0 [c8Facet]).vertices.length = 3 := by
  with_unfolding_all decide

/-- C8 as amended.  During STL loading (ASCII and binary readers share this
facet loop): a facet whose stored normal has norm at most 0.99 — in
particular a zero-length normal — is dropped from the mesh (no triangle and
no normal is appended; its vertices still enter the snapping map); a facet
whose stored normal has norm above 0.99 is kept, and its stored normal is
discarded and recomputed from the triangle's longest two edges, so two kept
facets with the same vertices produce the same mesh entry whatever their
stored normals; and repeated vertices are canonicalized through the
snapping map: a vertex equivalent to a stored one adds nothing (its stored
index and position are reused), and the map never stores two snapped-equal
vertices, with indices numbering the vertex array consecutively. -/
theorem C8_amended_facet_processing (snaptol zerotol : ℚ) (len : Vec3 → ℚ)
    (st : MeshState) (f g : STLFacet) (v : Vec3) (facets : List STLFacet) :
    (¬ mkRat 9801 10000 < f.normal.normSq →
      (processFacet snaptol len zerotol st f).triangles = st.triangles
      ∧ (processFacet snaptol len zerotol st f).normals = st.normals)
    ∧ (f.v1 = g.v1 → f.v2 = g.v2 → f.v3 = g.v3 →
        mkRat 9801 10000 < f.normal.normSq → mkRat 9801 10000 < g.normal.normSq →
        processFacet snaptol len zerotol st f = processFacet snaptol len zerotol st g)
    ∧ ((∃ e ∈ st.indexMap, snapEquiv snaptol e.1 v = true) →
        (insertVertex snaptol st v).1 = st)
    ∧ MeshInv snaptol (readSTLFacets snaptol len zerotol facets) := by
  refine ⟨?_, ?_, insertVertex_found snaptol st v, ?_⟩
  · intro h
    unfold processFacet
    rw [if_neg h]
    obtain ⟨t1, n1⟩ := insertVertex_mesh_fields snaptol st f.v1
    obtain ⟨t2, n2⟩ := insertVertex_mesh_fields snaptol (insertVertex snaptol st f.v1).1 f.v2
    obtain ⟨t3, n3⟩ := insertVertex_mesh_fields snaptol
      (insertVertex snaptol (insertVertex snaptol st f.v1).1 f.v2).1 f.v3
    exact ⟨by rw [t3, t2, t1], by rw [n3, n2, n1]⟩
  · intro hv1 hv2 hv3 hf hg
    unfold processFacet
    rw [hv1, hv2, hv3, if_pos hf, if_pos hg]
  · exact readSTLFacets_inv_aux snaptol len zerotol facets emptyMeshState
      ⟨rfl, rfl, List.Pairwise.nil⟩

/-- Witness for C8: the zero-normal facet is dropped; two unit-normal
facets over the same triangle coincide; a repeated vertex is reused. -/
theorem C8_amended_facet_processing_witness :
    ((processFacet (mkRat 1 1000) (fun _ => 0) 0 emptyMeshState c8Facet).triangles
        = emptyMeshState.triangles
      ∧ (processFacet (mkRat 1 1000) (fun _ => 0) 0 emptyMeshState c8Facet).normals
        = emptyMeshState.normals)
    ∧ processFacet (mkRat 1 1000) (fun _ => 0) 0 emptyMeshState
        ⟨⟨1, 0, 0⟩, ⟨0, 0, 0⟩, ⟨1, 0, 0⟩, ⟨0, 1, 0⟩⟩
      = processFacet (mkRat 1 1000) (fun _ => 0) 0 emptyMeshState
        ⟨⟨0, 1, 0⟩, ⟨0, 0, 0⟩, ⟨1, 0, 0⟩, ⟨0, 1, 0⟩⟩
    ∧ (insertVertex (mkRat 1 1000) (readSTLFacets (mkRat 1 1000) (fun _ => 0) 0 [c8Facet]) ⟨0, 0, 0⟩).1
      = readSTLFacets (mkRat 1 1000) (fun _ => 0) 0 [c8Facet]
    ∧ MeshInv (mkRat 1 1000) (readSTLFacets (mkRat 1 1000) (fun _ => 0) 0 [c8Facet]) :=
  ⟨(C8_amended_facet_processing (mkRat 1 1000) 0 (fun _ => 0) emptyMeshState c8Facet c8Facet
      ⟨0, 0, 0⟩ [c8Facet]).1 (by with_unfolding_all decide),
   (C8_amended_facet_processing (mkRat 1 1000) 0 (fun _ => 0) emptyMeshState
      ⟨⟨1, 0, 0⟩, ⟨0, 0, 0⟩, ⟨1, 0, 0⟩, ⟨0, 1, 0⟩⟩
      ⟨⟨0, 1, 0⟩, ⟨0, 0, 0⟩, ⟨1, 0, 0⟩, ⟨0, 1, 0⟩⟩ ⟨0, 0, 0⟩ [c8Facet]).2.1
      rfl rfl rfl (by with_unfolding_all decide) (by with_unfolding_all decide),
   (C8_amended_facet_processing (mkRat 1 1000) 0 (fun _ => 0)
      (readSTLFacets (mkRat 1 1000) (fun _ => 0) 0 [c8Facet]) c8Facet c8Facet ⟨0, 0, 0⟩ [c8Facet]).2.2.1
      (by with_unfolding_all decide),
   (C8_amended_facet_processing (mkRat 1 1000) 0 (fun _ => 0) emptyMeshState c8Facet c8Facet
      ⟨0, 0, 0⟩ [c8Facet]).2.2.2⟩

end TIBRA
